import Mathlib

/- A shallow embedding of the NoteX application core (src/main.py): the
heading-based section splitter, the adaptive summarization length budgets,
the per-section summarization loop with its skip and error policy, and the
YouTube transcript adapter.  Python strings are modelled as List Char with
the ASCII whitespace and digit classes; Python nonnegative ints are Nat.
The Python float expressions int(word_count * 0.5) and int(max_len * 0.6)
truncate toward zero and are exact on every reachable value, equal to
word_count / 2 and max_len * 3 / 5 in Nat arithmetic, so they are embedded
as Nat division. -/

namespace NoteX

/-- ASCII whitespace, the character class of Python str.split, str.strip
and of the regex whitespace class. -/
def isSpace (c : Char) : Bool :=
  c = ' ' || c = '\t' || c = '\n' || c = '\r' || c = '\x0b' || c = '\x0c'

/-- ASCII digit, the regex digit class. -/
def isDigit (c : Char) : Bool := '0' ≤ c && c ≤ '9'

/-- The pattern pat matches literally at the head of cs. -/
def leadsWith : List Char → List Char → Bool
  | [], _ => true
  | _ :: _, [] => false
  | p :: ps, c :: cs => p == c && leadsWith ps cs

/-- The regex alternative for a numbered heading: one or more digits, a
period, then one whitespace character. -/
def matchesNumHeading : List Char → Bool
  | [] => false
  | c :: rest =>
    isDigit c &&
      match rest.dropWhile isDigit with
      | '.' :: d :: _ => isSpace d
      | _ => false

/-- The regex alternative for a word heading: the literal word, one or
more whitespace characters, then a digit. -/
def matchesWordHeading (w : List Char) (cs : List Char) : Bool :=
  leadsWith w cs &&
    match cs.drop w.length with
    | c :: rest =>
      isSpace c &&
        match rest.dropWhile isSpace with
        | d :: _ => isDigit d
        | [] => false
    | [] => false

/-- The lookahead of the splitting regex in summarize_by_sections, line 68
of src/main.py: a heading begins at this position. -/
def isHeadingStart (cs : List Char) : Bool :=
  matchesNumHeading cs || matchesWordHeading ("Chapter".toList) cs ||
    matchesWordHeading ("Section".toList) cs

/-- One left-to-right pass of the splitting regex: each newline whose
lookahead sees a heading is consumed as a one-character delimiter. -/
def splitSectionsAux : List Char → List Char → List (List Char)
  | acc, [] => [acc.reverse]
  | acc, c :: rest =>
    if c == '\n' && isHeadingStart rest then
      acc.reverse :: splitSectionsAux [] rest
    else
      splitSectionsAux (c :: acc) rest

/-- The section splitter of summarize_by_sections (line 68 of
src/main.py). -/
def splitSections (text : List Char) : List (List Char) :=
  splitSectionsAux [] text

/-- Some newline of the text is a split point of the splitting regex. -/
def hasSplitPoint : List Char → Bool
  | [] => false
  | c :: rest => (c == '\n' && isHeadingStart rest) || hasSplitPoint rest

/-- Some line start (the start of the text, or the position right after
any newline) matches one of the three heading patterns. -/
def hasHeadingMatch (cs : List Char) : Bool :=
  isHeadingStart cs || hasSplitPoint cs

/-- Token counting of Python str.split with no separator: the number of
maximal runs of non-whitespace characters.  The flag records whether the
scan is inside such a run. -/
def countWordsAux : Bool → List Char → Nat
  | _, [] => 0
  | inWord, c :: rest =>
    if isSpace c then countWordsAux false rest
    else (if inWord then 0 else 1) + countWordsAux true rest

def countWords (cs : List Char) : Nat := countWordsAux false cs

/-- Python str.strip: remove leading and trailing whitespace. -/
def trim (cs : List Char) : List Char :=
  ((cs.dropWhile isSpace).reverse.dropWhile isSpace).reverse

/-- max_len = min(150, max(13, int(word_count * 0.5))), line 76 of
src/main.py. -/
def maxLenOf (wordCount : Nat) : Nat := min 150 (max 13 (wordCount / 2))

/-- min_len = max(10, int(max_len * 0.6)), line 77 of src/main.py. -/
def minLenOf (maxLen : Nat) : Nat := max 10 (maxLen * 3 / 5)

/-- The max-length formula the spec claims, with arithmetic rounding to
the nearest integer (half away from zero) instead of truncation. -/
def specMaxLen (wordCount : Nat) : Nat := min 150 (max 13 ((wordCount + 1) / 2))

/-- The min-length formula the spec claims, with arithmetic rounding to
the nearest integer (half away from zero) instead of truncation. -/
def specMinLen (maxLen : Nat) : Nat := max 10 ((6 * maxLen + 5) / 10)

/-- The arguments prepared for one summarization-capability call. -/
structure SummParams where
  shortText : List Char
  adjustedMax : Nat
  adjustedMin : Nat
  deriving DecidableEq

/-- The length-budget computation of summarize_by_sections for one section
(lines 72 and 75 to 80 of src/main.py). -/
def summParams (sec0 : List Char) : SummParams :=
  let sec := trim sec0
  let wordCount := countWords sec
  let shortText := sec.take 1000
  let maxLen := maxLenOf wordCount
  let minLen := minLenOf maxLen
  let adjustedMax := min maxLen (countWords shortText)
  let adjustedMin := if 1 < adjustedMax then min minLen (adjustedMax - 1) else 1
  ⟨shortText, adjustedMax, adjustedMin⟩

/-- The summarization capability: text, max length, min length; it returns
the summary text or the description of the raised failure. -/
abbrev Summarizer : Type :=
  List Char → Nat → Nat → Except (List Char) (List Char)

/-- The fixed skip placeholder recorded for short sections (line 86 of
src/main.py). -/
def skipMessage : List Char := "Section too short to summarize.".toList

/-- The error placeholder recorded on a capability failure (line 84 of
src/main.py). -/
def errorText (e : List Char) : List Char := "Error: ".toList ++ e

/-- The value recorded for one section, paired with the number of
summarization-capability calls made for that section (lines 72 to 86 of
src/main.py). -/
def sectionResult (cap : Summarizer) (sec0 : List Char) : List Char × Nat :=
  if 20 < countWords (trim sec0) then
    let p := summParams sec0
    match cap p.shortText p.adjustedMax p.adjustedMin with
    | Except.ok s => (s, 1)
    | Except.error e => (errorText e, 1)
  else
    (skipMessage, 0)

/-- The positional label of the i-th section: the literal text followed by
the decimal numeral. -/
def sectionLabel (n : Nat) : List Char :=
  "Section ".toList ++ (Nat.repr n).toList

/-- summarize_by_sections (lines 67 to 87 of src/main.py): split the text,
then per section record a summary, an error text or the skip message,
labelled in document order.  The Python dict, whose keys are distinct by
construction, is modelled as the insertion-ordered association list. -/
def summarize_by_sections (cap : Summarizer) (text : List Char) :
    List (List Char × List Char) :=
  (splitSections text).enum.map
    (fun p => (sectionLabel (p.1 + 1), (sectionResult cap p.2).1))

/-- The total number of summarization-capability invocations of one run. -/
def summarizerCallCount (cap : Summarizer) (text : List Char) : Nat :=
  ((splitSections text).map (fun sec => (sectionResult cap sec).2)).sum

/-- Python " ".join. -/
def joinSpace : List (List Char) → List Char
  | [] => []
  | [s] => s
  | s :: t :: rest => s ++ ' ' :: joinSpace (t :: rest)

/-- The session context stored on line 139 of src/main.py: the values of
the summary mapping joined with single spaces. -/
def sessionContext (cap : Summarizer) (text : List Char) : List Char :=
  joinSpace ((summarize_by_sections cap text).map Prod.snd)

/-- Joining a section sequence with one newline at each boundary, used to
state that the splitter removes exactly the delimiter newlines. -/
def joinNL : List (List Char) → List Char
  | [] => []
  | [s] => s
  | s :: t :: rest => s ++ '\n' :: joinNL (t :: rest)

/-- The pattern pat occurs contiguously somewhere in cs. -/
def occursIn (pat : List Char) : List Char → Bool
  | [] => leadsWith pat []
  | c :: rest => leadsWith pat (c :: rest) || occursIn pat rest

/-- The scan behind the last element of Python str.split(pat): move left
to right, skip each non-overlapping occurrence of pat, and return the
remainder after the final occurrence.  The fuel argument only bounds the
recursion depth; every call keeps the text length at most the fuel. -/
def splitLastFuel (pat : List Char) : Nat → List Char → List Char
  | _, [] => []
  | 0, c :: rest => c :: rest
  | fuel + 1, c :: rest =>
    if leadsWith pat (c :: rest) && !pat.isEmpty then
      splitLastFuel pat fuel (rest.drop (pat.length - 1))
    else if occursIn pat rest && !pat.isEmpty then
      splitLastFuel pat fuel rest
    else
      c :: rest

/-- The last element of Python str.split(pat) for nonempty pat. -/
def splitLast (pat cs : List Char) : List Char :=
  splitLastFuel pat cs.length cs

/-- The scan behind Python str.split(pat): collect the segments between
the non-overlapping occurrences of pat, left to right.  The fuel argument
only bounds the recursion depth. -/
def pySplitFuel (pat : List Char) : Nat → List Char → List Char → List (List Char)
  | _, acc, [] => [acc.reverse]
  | 0, acc, c :: rest => [acc.reverse ++ c :: rest]
  | fuel + 1, acc, c :: rest =>
    if leadsWith pat (c :: rest) && !pat.isEmpty then
      acc.reverse :: pySplitFuel pat fuel [] (rest.drop (pat.length - 1))
    else
      pySplitFuel pat fuel (c :: acc) rest

/-- Python str.split(pat) for nonempty pat: the segments between the
non-overlapping occurrences of pat, scanned left to right. -/
def pySplit (pat cs : List Char) : List (List Char) :=
  pySplitFuel pat cs.length [] cs

/-- The video id derivation of get_youtube_transcript (line 51 of
src/main.py): the last split segment on "v=" when the reference contains
"youtube.com", otherwise the last split segment on "/". -/
def video_id_of (url : List Char) : List Char :=
  if occursIn ("youtube.com".toList) url then splitLast ("v=".toList) url
  else splitLast ("/".toList) url

/-- One timed transcript fragment; the timing payload is opaque. -/
structure Fragment (τ : Type) where
  text : List Char
  start : τ
  duration : τ

/-- get_youtube_transcript (lines 49 to 55 of src/main.py): derive the
video id, fetch, join the fragment texts with single spaces; a fetch
failure becomes a descriptive error string. -/
def get_youtube_transcript {τ : Type}
    (fetchTranscript : List Char → Except (List Char) (List (Fragment τ)))
    (url : List Char) : List Char :=
  match fetchTranscript (video_id_of url) with
  | Except.ok transcript => joinSpace (transcript.map Fragment.text)
  | Except.error e => "Error retrieving transcript: ".toList ++ e

/-- A sample section of 21 one-letter words, used by witnesses. -/
def sampleLongSection : List Char :=
  "w w w w w w w w w w w w w w w w w w w w w".toList

/-- A sample heading-free text, used by witnesses. -/
def samplePlain : List Char := "hello world\nsecond line".toList

/-- A capability that always succeeds, used by witnesses. -/
def capAllOk : Summarizer := fun _ _ _ => Except.ok ("fine".toList)

/-- Sample sections of a three-section document, used by witnesses. -/
def sampleSec1 : List Char :=
  "a a a a a a a a a a a a a a a a a a a a a".toList

def sampleSec2 : List Char :=
  "Section 2 b b b b b b b b b b b b b b b b b b b".toList

def sampleSec3 : List Char :=
  "Section 3 c c c c c c c c c c c c c c c c c c c".toList

/-- The three-section document assembled from the sample sections. -/
def sampleText3 : List Char :=
  sampleSec1 ++ '\n' :: sampleSec2 ++ '\n' :: sampleSec3

/-- A capability that fails exactly on the second sample section, used by
witnesses. -/
def capErr2 : Summarizer :=
  fun t _ _ =>
    if t = sampleSec2 then Except.error ("boom".toList)
    else Except.ok ("fine".toList)

/-- A fixed transcript fetcher, used by witnesses. -/
def fetchFixed : List Char → Except (List Char) (List (Fragment Unit)) :=
  fun _ => Except.ok [⟨"hello".toList, (), ()⟩, ⟨"world".toList, (), ()⟩]

/-! Helper lemmas about the splitter. -/

theorem splitSectionsAux_ne_nil :
    ∀ (cs acc : List Char), splitSectionsAux acc cs ≠ [] := by
  intro cs
  induction cs with
  | nil => intro acc; simp [splitSectionsAux]
  | cons c rest ih =>
    intro acc
    simp only [splitSectionsAux]
    by_cases hc : (c == '\n' && isHeadingStart rest) = true
    · rw [if_pos hc]; simp
    · rw [if_neg hc]; exact ih (c :: acc)

theorem joinNL_cons (s : List Char) (L : List (List Char)) (h : L ≠ []) :
    joinNL (s :: L) = s ++ '\n' :: joinNL L := by
  cases L with
  | nil => exact absurd rfl h
  | cons t rest => rfl

theorem splitSectionsAux_join :
    ∀ (cs acc : List Char), joinNL (splitSectionsAux acc cs) = acc.reverse ++ cs := by
  intro cs
  induction cs with
  | nil => intro acc; simp [splitSectionsAux, joinNL]
  | cons c rest ih =>
    intro acc
    simp only [splitSectionsAux]
    by_cases hc : (c == '\n' && isHeadingStart rest) = true
    · rw [if_pos hc, joinNL_cons _ _ (splitSectionsAux_ne_nil rest []), ih []]
      rw [Bool.and_eq_true] at hc
      have hceq : c = '\n' := beq_iff_eq.mp hc.1
      subst hceq
      simp
    · rw [if_neg hc, ih (c :: acc)]
      simp

theorem splitSectionsAux_no_split :
    ∀ (cs acc : List Char), hasSplitPoint cs = false →
      splitSectionsAux acc cs = [acc.reverse ++ cs] := by
  intro cs
  induction cs with
  | nil => intro acc _; simp [splitSectionsAux]
  | cons c rest ih =>
    intro acc h
    simp only [hasSplitPoint, Bool.or_eq_false_iff] at h
    simp only [splitSectionsAux]
    rw [if_neg (by simp [h.1]), ih (c :: acc) h.2]
    simp

theorem sectionResult_skip (cap : Summarizer) (sec : List Char)
    (h : countWords (trim sec) ≤ 20) :
    sectionResult cap sec = (skipMessage, 0) := by
  unfold sectionResult
  rw [if_neg (by omega)]

theorem dropWhile_isSpace_head :
    ∀ (l : List Char) (c : Char) (rest : List Char),
      l.dropWhile isSpace = c :: rest → isSpace c = false := by
  intro l
  induction l with
  | nil => intro c rest h; simp [List.dropWhile] at h
  | cons x xs ih =>
    intro c rest h
    rw [List.dropWhile_cons] at h
    by_cases hx : isSpace x = true
    · rw [if_pos hx] at h
      exact ih c rest h
    · rw [if_neg hx] at h
      injection h with h1 _
      subst h1
      simpa using hx

theorem dropWhile_isSpace_getLast? :
    ∀ (l r : List Char), l.dropWhile isSpace = r → r ≠ [] →
      r.getLast? = l.getLast? := by
  intro l
  induction l with
  | nil =>
    intro r h hne
    exact absurd h.symm hne
  | cons x xs ih =>
    intro r h hne
    rw [List.dropWhile_cons] at h
    by_cases hx : isSpace x = true
    · rw [if_pos hx] at h
      cases xs with
      | nil => exact absurd h.symm hne
      | cons y ys =>
        rw [List.getLast?_cons_cons]
        exact ih r h hne
    · rw [if_neg hx] at h
      rw [← h]

theorem trim_head_not_space (cs : List Char) (c : Char) (rest : List Char)
    (h : trim cs = c :: rest) : isSpace c = false := by
  unfold trim at h
  have hb : (cs.dropWhile isSpace).reverse.dropWhile isSpace = (c :: rest).reverse := by
    rw [← h, List.reverse_reverse]
  have hbne : (c :: rest).reverse ≠ [] := by simp
  have h1 := dropWhile_isSpace_getLast? _ _ hb hbne
  rw [List.getLast?_reverse, List.getLast?_reverse] at h1
  cases ha : cs.dropWhile isSpace with
  | nil => rw [ha] at h1; simp at h1
  | cons y ys =>
    rw [ha] at h1
    simp only [List.head?_cons, Option.some.injEq] at h1
    rw [h1]
    exact dropWhile_isSpace_head cs y ys ha

theorem countWords_trim_take_pos (sec : List Char)
    (h : 0 < countWords (trim sec)) :
    1 ≤ countWords ((trim sec).take 1000) := by
  cases htr : trim sec with
  | nil => rw [htr] at h; simp [countWords, countWordsAux] at h
  | cons c rest =>
    have hc : isSpace c = false := trim_head_not_space sec c rest htr
    rw [show (1000 : Nat) = 999 + 1 from rfl, List.take_succ_cons]
    simp [countWords, countWordsAux, hc]

/-! Claim theorems. -/

/-- C1: for a section whose trimmed text has more than 20 tokens, the
adjusted length bounds satisfy 1 ≤ adjustedMin ≤ adjustedMax ≤
min 150 (tokens of the truncated text), with adjustedMin strictly below
adjustedMax whenever adjustedMax exceeds 1, and adjustedMin = 1 in the
boundary case adjustedMax = 1. -/
theorem adjusted_bounds (sec : List Char)
    (h : 20 < countWords (trim sec)) :
    1 ≤ (summParams sec).adjustedMin ∧
    (summParams sec).adjustedMin ≤ (summParams sec).adjustedMax ∧
    (summParams sec).adjustedMax ≤ min 150 (countWords (summParams sec).shortText) ∧
    (1 < (summParams sec).adjustedMax →
      (summParams sec).adjustedMin < (summParams sec).adjustedMax) ∧
    ((summParams sec).adjustedMax = 1 → (summParams sec).adjustedMin = 1) := by
  have hst : 1 ≤ countWords ((trim sec).take 1000) :=
    countWords_trim_take_pos sec (by omega)
  have h3 : (summParams sec).adjustedMin
      = if 1 < (summParams sec).adjustedMax
        then min (minLenOf (maxLenOf (countWords (trim sec))))
            ((summParams sec).adjustedMax - 1)
        else 1 := rfl
  have h2 : (summParams sec).adjustedMax
      = min (maxLenOf (countWords (trim sec))) (countWords ((trim sec).take 1000)) := rfl
  have h1 : (summParams sec).shortText = (trim sec).take 1000 := rfl
  rw [h3, h2, h1]
  unfold maxLenOf minLenOf
  by_cases hA : 1 < min (min 150 (max 13 (countWords (trim sec) / 2)))
      (countWords ((trim sec).take 1000))
  · rw [if_pos hA]
    refine ⟨?_, ?_, ?_, ?_, ?_⟩ <;> omega
  · rw [if_neg hA]
    refine ⟨?_, ?_, ?_, ?_, ?_⟩ <;> omega

/-- Witness for adjusted_bounds at a concrete 21-word section. -/
theorem adjusted_bounds_witness :
    20 < countWords (trim sampleLongSection) ∧
    (1 ≤ (summParams sampleLongSection).adjustedMin ∧
     (summParams sampleLongSection).adjustedMin
        ≤ (summParams sampleLongSection).adjustedMax ∧
     (summParams sampleLongSection).adjustedMax
        ≤ min 150 (countWords (summParams sampleLongSection).shortText) ∧
     (1 < (summParams sampleLongSection).adjustedMax →
        (summParams sampleLongSection).adjustedMin
          < (summParams sampleLongSection).adjustedMax) ∧
     ((summParams sampleLongSection).adjustedMax = 1 →
        (summParams sampleLongSection).adjustedMin = 1)) :=
  ⟨by decide, adjusted_bounds sampleLongSection (by decide)⟩

/-- C2 counterexample: the code truncates toward zero where the claim says
arithmetic rounding.  At word count 27 the code computes max length 13
while the claimed formula gives 14; at max length 18 the code computes min
length 10 while the claimed formula gives 11. -/
theorem length_budget_rounding_counterexample :
    maxLenOf 27 = 13 ∧ specMaxLen 27 = 14 ∧ maxLenOf 27 ≠ specMaxLen 27 ∧
    minLenOf 18 = 10 ∧ specMinLen 18 = 11 ∧ minLenOf 18 ≠ specMinLen 18 := by
  refine ⟨rfl, rfl, ?_, rfl, rfl, ?_⟩ <;> decide

/-- C2 amended: for a section whose trimmed text has more than 20 tokens,
the length budget is maxLen = clamp of the truncation of wordCount times
one half to the interval 13 to 150, and minLen = max 10 of the truncation
of maxLen times three fifths, truncation toward zero; the budget enters
the recorded parameters through the adjusted values. -/
theorem length_budget_truncation (sec : List Char)
    (_h : 20 < countWords (trim sec)) :
    (summParams sec).adjustedMax
      = min (min 150 (max 13 (countWords (trim sec) / 2)))
          (countWords ((trim sec).take 1000)) ∧
    (summParams sec).adjustedMin
      = if 1 < (summParams sec).adjustedMax
        then min (max 10 (min 150 (max 13 (countWords (trim sec) / 2)) * 3 / 5))
            ((summParams sec).adjustedMax - 1)
        else 1 :=
  ⟨rfl, rfl⟩

/-- Witness for length_budget_truncation at a concrete 21-word section. -/
theorem length_budget_truncation_witness :
    20 < countWords (trim sampleLongSection) ∧
    ((summParams sampleLongSection).adjustedMax
        = min (min 150 (max 13 (countWords (trim sampleLongSection) / 2)))
            (countWords ((trim sampleLongSection).take 1000)) ∧
     (summParams sampleLongSection).adjustedMin
        = if 1 < (summParams sampleLongSection).adjustedMax
          then min
              (max 10 (min 150 (max 13 (countWords (trim sampleLongSection) / 2)) * 3 / 5))
              ((summParams sampleLongSection).adjustedMax - 1)
          else 1) :=
  ⟨by decide, length_budget_truncation sampleLongSection (by decide)⟩

/-- C3: the splitter removes exactly the delimiter newlines: rejoining the
produced section sequence with one newline character at each split
boundary reconstructs the input text, so the sections are non-overlapping
contiguous substrings in document order. -/
theorem split_reconstructs (text : List Char) :
    joinNL (splitSections text) = text := by
  have h := splitSectionsAux_join text []
  simpa [splitSections] using h

/-- C8: a text in which no line start matches any of the three heading
patterns is returned by the splitter as a single section equal to the
whole text. -/
theorem no_heading_single_section (text : List Char)
    (h : hasHeadingMatch text = false) : splitSections text = [text] := by
  have h2 : hasSplitPoint text = false := by
    simp only [hasHeadingMatch, Bool.or_eq_false_iff] at h
    exact h.2
  have h3 := splitSectionsAux_no_split text [] h2
  simpa [splitSections] using h3

/-- Witness for no_heading_single_section at a concrete heading-free
text. -/
theorem no_heading_single_section_witness :
    hasHeadingMatch samplePlain = false ∧
    splitSections samplePlain = [samplePlain] :=
  ⟨by decide, no_heading_single_section samplePlain (by decide)⟩

/-- C4: a section whose trimmed text has at most 20 whitespace-delimited
tokens is recorded under its positional label with the fixed skip
placeholder, and no summarization-capability call is made for it. -/
theorem short_section_skipped (cap : Summarizer) (text : List Char)
    (i : Nat) (sec : List Char)
    (hsec : (splitSections text)[i]? = some sec)
    (hwc : countWords (trim sec) ≤ 20) :
    (summarize_by_sections cap text)[i]? = some (sectionLabel (i + 1), skipMessage) ∧
    (sectionResult cap sec).2 = 0 := by
  have hres := sectionResult_skip cap sec hwc
  constructor
  · unfold summarize_by_sections
    rw [List.getElem?_map, List.getElem?_enum, hsec]
    simp [hres]
  · rw [hres]

/-- Witness for short_section_skipped: a two-word text yields the skip
placeholder under the label of its single section. -/
theorem short_section_skipped_witness :
    (summarize_by_sections capAllOk ("hi there".toList))[0]?
        = some (sectionLabel 1, skipMessage) ∧
    (sectionResult capAllOk ("hi there".toList)).2 = 0 :=
  short_section_skipped capAllOk ("hi there".toList) 0 ("hi there".toList)
    (by decide) (by decide)

/-- C9: the labels of the summary mapping are exactly the positional
labels of the numerals 1 up to the number of sections, in document
order. -/
theorem section_labels_canonical (cap : Summarizer) (text : List Char) :
    (summarize_by_sections cap text).map Prod.fst
      = (List.range (splitSections text).length).map (fun i => sectionLabel (i + 1)) := by
  unfold summarize_by_sections
  rw [List.map_map, ← List.enum_map_fst (splitSections text), List.map_map]
  rfl

/-- C10: on the empty text the splitter yields one empty section, whose
zero word count takes the skip branch: the mapping has the single entry
of the first label with the skip placeholder, and the summarization
capability is never invoked. -/
theorem empty_input_single_skip (cap : Summarizer) :
    summarize_by_sections cap [] = [(sectionLabel 1, skipMessage)] ∧
    summarizerCallCount cap [] = 0 :=
  ⟨rfl, rfl⟩

theorem sectionResult_error (cap : Summarizer) (sec e : List Char)
    (hwc : 20 < countWords (trim sec))
    (herr : cap (summParams sec).shortText (summParams sec).adjustedMax
        (summParams sec).adjustedMin = Except.error e) :
    sectionResult cap sec = (errorText e, 1) := by
  simp only [sectionResult]
  rw [if_pos hwc, herr]

theorem sectionResult_congr (cap cap2 : Summarizer) (sec : List Char)
    (hagree : 20 < countWords (trim sec) →
      cap2 (summParams sec).shortText (summParams sec).adjustedMax
          (summParams sec).adjustedMin
        = cap (summParams sec).shortText (summParams sec).adjustedMax
            (summParams sec).adjustedMin) :
    sectionResult cap2 sec = sectionResult cap sec := by
  by_cases hwc : 20 < countWords (trim sec)
  · simp only [sectionResult]
    rw [if_pos hwc, if_pos hwc, hagree hwc]
  · simp only [sectionResult]
    rw [if_neg hwc, if_neg hwc]

/-- C5: a capability failure on one section is recorded locally as the
error placeholder under that section's label; the entry of any section
with different call arguments is the one an otherwise-agreeing capability
(in particular one that succeeds on the failing call) would record; and
the session context is the space-join of all recorded values, the error
and skip texts included. -/
theorem capability_failure_is_local
    (cap cap2 : Summarizer) (text : List Char) (k : Nat) (sec e : List Char)
    (hk : (splitSections text)[k]? = some sec)
    (hwc : 20 < countWords (trim sec))
    (herr : cap (summParams sec).shortText (summParams sec).adjustedMax
        (summParams sec).adjustedMin = Except.error e)
    (hagree : ∀ sec2 ∈ splitSections text, summParams sec2 ≠ summParams sec →
      cap2 (summParams sec2).shortText (summParams sec2).adjustedMax
          (summParams sec2).adjustedMin
        = cap (summParams sec2).shortText (summParams sec2).adjustedMax
            (summParams sec2).adjustedMin) :
    (summarize_by_sections cap text)[k]? = some (sectionLabel (k + 1), errorText e) ∧
    (∀ (j : Nat) (sec2 : List Char), (splitSections text)[j]? = some sec2 →
      summParams sec2 ≠ summParams sec →
      (summarize_by_sections cap2 text)[j]? = (summarize_by_sections cap text)[j]?) ∧
    sessionContext cap text = joinSpace ((summarize_by_sections cap text).map Prod.snd) := by
  refine ⟨?_, ?_, rfl⟩
  · unfold summarize_by_sections
    rw [List.getElem?_map, List.getElem?_enum, hk]
    simp [sectionResult_error cap sec e hwc herr]
  · intro j sec2 hj hne
    have hmem : sec2 ∈ splitSections text := List.getElem?_mem hj
    have hres : sectionResult cap2 sec2 = sectionResult cap sec2 :=
      sectionResult_congr cap cap2 sec2 (fun _ => hagree sec2 hmem hne)
    unfold summarize_by_sections
    rw [List.getElem?_map, List.getElem?_map, List.getElem?_enum, hj]
    simp [hres]

/-- Witness for capability_failure_is_local on a three-section document
whose capability fails exactly on the middle section. -/
theorem capability_failure_is_local_witness :
    (summarize_by_sections capErr2 sampleText3)[1]?
        = some (sectionLabel 2, errorText ("boom".toList)) ∧
    (summarize_by_sections capAllOk sampleText3)[0]?
        = (summarize_by_sections capErr2 sampleText3)[0]? := by
  have hagree : ∀ sec2 ∈ splitSections sampleText3,
      summParams sec2 ≠ summParams sampleSec2 →
      capAllOk (summParams sec2).shortText (summParams sec2).adjustedMax
          (summParams sec2).adjustedMin
        = capErr2 (summParams sec2).shortText (summParams sec2).adjustedMax
            (summParams sec2).adjustedMin := by
    intro sec2 hmem hne
    have hs : splitSections sampleText3 = [sampleSec1, sampleSec2, sampleSec3] := by decide
    rw [hs] at hmem
    simp only [List.mem_cons, List.not_mem_nil, or_false] at hmem
    rcases hmem with rfl | rfl | rfl
    · rfl
    · exact absurd rfl hne
    · rfl
  have h := capability_failure_is_local capErr2 capAllOk sampleText3 1 sampleSec2
    ("boom".toList) (by decide) (by decide) rfl hagree
  exact ⟨h.1, h.2.1 0 sampleSec1 (by decide) (by decide)⟩

/-- C6 counterexample: on the text whose heading sits at the very start,
the splitter produces no split boundary at all, because the regex only
splits at a newline that precedes a heading; the result is one section,
not a preceding section plus the heading section. -/
theorem chapter_at_start_counterexample :
    splitSections ("Chapter 1\nShort.".toList) = ["Chapter 1\nShort.".toList] ∧
    (splitSections ("Chapter 1\nShort.".toList)).length ≠ 2 := by
  refine ⟨by decide, by decide⟩

/-- C6 amended: on the text with the heading at the very start, the
splitter yields the whole text as its single section (no boundary is
produced, since the heading is not preceded by a newline), and that
3-word section receives the skip placeholder under the first label with
no summarization-capability call. -/
theorem chapter_at_start_amended (cap : Summarizer) :
    splitSections ("Chapter 1\nShort.".toList) = ["Chapter 1\nShort.".toList] ∧
    summarize_by_sections cap ("Chapter 1\nShort.".toList)
      = [(sectionLabel 1, skipMessage)] ∧
    summarizerCallCount cap ("Chapter 1\nShort.".toList) = 0 :=
  ⟨by decide, rfl, rfl⟩

theorem leadsWith_nil_of_ne (pat : List Char) (hpat : pat ≠ []) :
    leadsWith pat [] = false := by
  cases pat with
  | nil => exact absurd rfl hpat
  | cons p ps => rfl

theorem splitLastFuel_not_occursIn (pat : List Char) :
    ∀ (fuel : Nat) (cs : List Char), occursIn pat cs = false →
      splitLastFuel pat fuel cs = cs := by
  intro fuel cs h
  cases cs with
  | nil => cases fuel <;> rfl
  | cons c rest =>
    simp only [occursIn, Bool.or_eq_false_iff] at h
    cases fuel with
    | zero => rfl
    | succ n =>
      simp only [splitLastFuel]
      rw [if_neg (by simp [h.1]), if_neg (by simp [h.2])]

theorem splitLast_not_occursIn (pat cs : List Char) (h : occursIn pat cs = false) :
    splitLast pat cs = cs :=
  splitLastFuel_not_occursIn pat cs.length cs h

theorem splitLastFuel_congr (pat : List Char) :
    ∀ (f1 f2 : Nat) (cs : List Char), cs.length ≤ f1 → cs.length ≤ f2 →
      splitLastFuel pat f1 cs = splitLastFuel pat f2 cs := by
  intro f1
  induction f1 with
  | zero =>
    intro f2 cs h1 _
    have hcs : cs = [] := List.length_eq_zero.mp (Nat.le_zero.mp h1)
    subst hcs
    cases f2 <;> rfl
  | succ n ih =>
    intro f2 cs h1 h2
    cases cs with
    | nil => cases f2 <;> rfl
    | cons c rest =>
      cases f2 with
      | zero => simp at h2
      | succ m =>
        simp only [splitLastFuel]
        simp only [List.length_cons] at h1 h2
        by_cases ha : (leadsWith pat (c :: rest) && !pat.isEmpty) = true
        · rw [if_pos ha, if_pos ha]
          apply ih
          · rw [List.length_drop]; omega
          · rw [List.length_drop]; omega
        · rw [if_neg ha, if_neg ha]
          by_cases hb : (occursIn pat rest && !pat.isEmpty) = true
          · rw [if_pos hb, if_pos hb]
            apply ih <;> omega
          · rw [if_neg hb, if_neg hb]

theorem splitLast_cons (pat : List Char) (c : Char) (rest : List Char) :
    splitLast pat (c :: rest)
      = if leadsWith pat (c :: rest) && !pat.isEmpty then
          splitLast pat (rest.drop (pat.length - 1))
        else if occursIn pat rest && !pat.isEmpty then
          splitLast pat rest
        else c :: rest := by
  show splitLastFuel pat (c :: rest).length (c :: rest) = _
  simp only [List.length_cons, splitLastFuel]
  by_cases ha : (leadsWith pat (c :: rest) && !pat.isEmpty) = true
  · rw [if_pos ha, if_pos ha]
    exact splitLastFuel_congr pat rest.length _ _
      (by rw [List.length_drop]; omega) (Nat.le_refl _)
  · rw [if_neg ha, if_neg ha]
    by_cases hb : (occursIn pat rest && !pat.isEmpty) = true
    · rw [if_pos hb, if_pos hb]
      rfl
    · rw [if_neg hb, if_neg hb]

theorem pySplitFuel_getLastD (pat : List Char) (hpat : pat ≠ []) :
    ∀ (fuel : Nat) (cs acc d : List Char), cs.length ≤ fuel →
      (pySplitFuel pat fuel acc cs).getLastD d
        = if occursIn pat cs = true then splitLast pat cs
          else acc.reverse ++ cs := by
  intro fuel
  induction fuel with
  | zero =>
    intro cs acc d h
    have hcs : cs = [] := List.length_eq_zero.mp (Nat.le_zero.mp h)
    subst hcs
    rw [if_neg (by simp [occursIn, leadsWith_nil_of_ne pat hpat])]
    simp [pySplitFuel]
  | succ n ih =>
    intro cs acc d h
    cases cs with
    | nil =>
      rw [if_neg (by simp [occursIn, leadsWith_nil_of_ne pat hpat])]
      simp [pySplitFuel]
    | cons c rest =>
      have hB : (!pat.isEmpty) = true := by
        cases pat with
        | nil => exact absurd rfl hpat
        | cons p ps => rfl
      simp only [pySplitFuel]
      simp only [List.length_cons] at h
      by_cases ha : (leadsWith pat (c :: rest) && !pat.isEmpty) = true
      · rw [if_pos ha, List.getLastD_cons]
        have hlen : (rest.drop (pat.length - 1)).length ≤ n := by
          rw [List.length_drop]; omega
        rw [ih (rest.drop (pat.length - 1)) [] acc.reverse hlen]
        have hlw : leadsWith pat (c :: rest) = true := by
          rw [Bool.and_eq_true] at ha; exact ha.1
        have hocc : occursIn pat (c :: rest) = true := by simp [occursIn, hlw]
        rw [if_pos hocc, splitLast_cons, if_pos ha]
        by_cases ho : occursIn pat (rest.drop (pat.length - 1)) = true
        · rw [if_pos ho]
        · rw [if_neg ho, splitLast_not_occursIn pat _ (by simpa using ho)]
          simp
      · rw [if_neg ha]
        have hlen2 : rest.length ≤ n := by omega
        rw [ih rest (c :: acc) d hlen2]
        have hlw : leadsWith pat (c :: rest) = false := by
          simp only [Bool.and_eq_true, hB, and_true] at ha
          rw [Bool.not_eq_true] at ha
          exact ha
        have hocc2 : occursIn pat (c :: rest) = occursIn pat rest := by
          simp [occursIn, hlw]
        rw [hocc2]
        by_cases ho : occursIn pat rest = true
        · rw [if_pos ho, if_pos ho, splitLast_cons, if_neg (by simp [hlw]),
            if_pos (by rw [Bool.and_eq_true]; exact ⟨ho, hB⟩)]
        · rw [if_neg ho, if_neg ho]
          simp

theorem splitLast_eq_pySplit (pat cs : List Char) (hpat : pat ≠ []) :
    splitLast pat cs = (pySplit pat cs).getLastD [] := by
  unfold pySplit
  rw [pySplitFuel_getLastD pat hpat cs.length cs [] [] (Nat.le_refl _)]
  by_cases ho : occursIn pat cs = true
  · rw [if_pos ho]
  · rw [if_neg ho, splitLast_not_occursIn pat cs (by simpa using ho)]
    simp

/-- C7 counterexample: on a URL carrying a second query parameter after
the id, the derived id is the whole suffix after "v=", not the value of
the query parameter (which is the text before the ampersand). -/
theorem video_id_counterexample :
    video_id_of ("https://www.youtube.com/watch?v=abc&t=10".toList)
        = "abc&t=10".toList ∧
    video_id_of ("https://www.youtube.com/watch?v=abc&t=10".toList)
        ≠ "abc".toList := by
  refine ⟨by decide, by decide⟩

/-- C7 amended: when the reference contains "youtube.com" the derived id
is the last element of the left-to-right split of the reference on "v="
(so any following query parameters stay inside the id); otherwise it is
the last element of the split on "/"; the fetched fragments' text fields
are joined with single spaces, discarding the timing data. -/
theorem youtube_adapter_amended :
    (∀ url : List Char, occursIn ("youtube.com".toList) url = true →
      video_id_of url = (pySplit ("v=".toList) url).getLastD []) ∧
    (∀ url : List Char, occursIn ("youtube.com".toList) url = false →
      video_id_of url = (pySplit ("/".toList) url).getLastD []) ∧
    (∀ (τ : Type) (fetch : List Char → Except (List Char) (List (Fragment τ)))
      (url : List Char) (frags : List (Fragment τ)),
      fetch (video_id_of url) = Except.ok frags →
      get_youtube_transcript fetch url = joinSpace (frags.map Fragment.text)) := by
  refine ⟨?_, ?_, ?_⟩
  · intro url h
    unfold video_id_of
    rw [if_pos h]
    exact splitLast_eq_pySplit _ _ (by decide)
  · intro url h
    unfold video_id_of
    rw [if_neg (by simpa using h)]
    exact splitLast_eq_pySplit _ _ (by decide)
  · intro τ fetch url frags hf
    unfold get_youtube_transcript
    rw [hf]

/-- Witness for youtube_adapter_amended: both reference shapes and a
concrete fixed fetcher. -/
theorem youtube_adapter_amended_witness :
    video_id_of ("https://www.youtube.com/watch?v=abc&t=10".toList)
        = (pySplit ("v=".toList)
            ("https://www.youtube.com/watch?v=abc&t=10".toList)).getLastD [] ∧
    video_id_of ("abc/def".toList)
        = (pySplit ("/".toList) ("abc/def".toList)).getLastD [] ∧
    get_youtube_transcript fetchFixed ("abc/def".toList)
        = joinSpace (([⟨"hello".toList, (), ()⟩,
            ⟨"world".toList, (), ()⟩] : List (Fragment Unit)).map Fragment.text) :=
  ⟨youtube_adapter_amended.1 _ (by decide),
   youtube_adapter_amended.2.1 _ (by decide),
   youtube_adapter_amended.2.2 Unit fetchFixed _ _ rfl⟩

end NoteX
